import Mathlib

/-!
Verification of the zymatik-com/nucleo liftover core: the chain-file parser
(`chainfile.Read`), the two-level interval index with its point queries
(`GetChain` and `GetAlignment`), the coordinate-transform engine
(`liftover.Lift`), the bulk export path (`liftover.StoreChainFile`) and the
chromosome-name normalization (`names.Chromosome`).

The Go source is embedded shallowly: strings are Lean `String`s manipulated
through their character lists (so that concrete runs reduce in the kernel),
`int64` values are Lean `Int`s, Go maps are association lists, and the
third-party augmented interval tree (a dependency that is not part of this
repository) is modelled from the specification as a list of intervals with a
half-open point query.
-/

namespace Nucleo

/-- Splits a character list on runs of whitespace, dropping empty fields.
Together with `strFields` this models Go `strings.Fields`. -/
def splitWsAux : List Char → List Char → List (List Char)
  | [], acc => if acc.isEmpty then [] else [acc.reverse]
  | c :: rest, acc =>
    if c.isWhitespace then
      if acc.isEmpty then splitWsAux rest [] else acc.reverse :: splitWsAux rest []
    else splitWsAux rest (c :: acc)

/-- Models Go `strings.Fields`: the whitespace-separated fields of a string. -/
def strFields (s : String) : List String :=
  (splitWsAux s.data []).map String.mk

/-- Models Go `strings.TrimSpace`: strips leading and trailing whitespace. -/
def trimSpace (s : String) : String :=
  String.mk (((s.data.dropWhile Char.isWhitespace).reverse.dropWhile Char.isWhitespace).reverse)

/-- Models Go `strings.HasPrefix`. -/
def hasPrefixStr (s p : String) : Bool :=
  p.data.isPrefixOf s.data

/-- Models Go `strings.TrimPrefix`: drops `p` from the front of `s` when present. -/
def trimPrefixStr (s p : String) : String :=
  if hasPrefixStr s p then String.mk (s.data.drop p.data.length) else s

/-- Models Go `strings.ToUpper` (ASCII case mapping, which is all the
repository's inputs use). -/
def toUpperStr (s : String) : String :=
  String.mk (s.data.map Char.toUpper)

/-- Numeric value of a list of decimal digit characters. -/
def parseDigits (ds : List Char) : Int :=
  ds.foldl (fun a c => a * 10 + ((c.toNat : Int) - 48)) 0

/-- Models Go `strconv.ParseInt(s, 10, 64)`: an optional sign followed by at
least one decimal digit, with the value required to fit in a signed 64-bit
integer; anything else fails. -/
def parseInt64 (s : String) : Option Int :=
  let p : Int × List Char :=
    match s.data with
    | '+' :: rest => (1, rest)
    | '-' :: rest => (-1, rest)
    | l => (1, l)
  if p.2.isEmpty then none
  else if p.2.all Char.isDigit then
    let v := p.1 * parseDigits p.2
    if -(2 ^ 63) ≤ v ∧ v ≤ 2 ^ 63 - 1 then some v else none
  else none

/-- Embeds `chainfile.parseField`: parse an integer field, falling back to the
sentinel `-1` when the field does not parse. -/
def parseField (field : String) : Int :=
  match parseInt64 field with
  | some v => v
  | none => -1

namespace names

/-- Embeds `names.Chromosome`: `strings.ToUpper(strings.TrimPrefix(chromosome,
"chr"))`, then aliasing `"M"` to `"MT"`. -/
def Chromosome (chromosome : String) : String :=
  let c := toUpperStr (trimPrefixStr chromosome "chr")
  if c = "M" then "MT" else c

end names

/-- Embeds `chainfile.Alignment`: one aligned block inside a chain, with
offsets relative to the chain's start in both coordinate spaces. -/
structure Alignment where
  RefOffset : Int
  QueryOffset : Int
  Size : Int
deriving DecidableEq, Repr

/-- Embeds `chainfile.Chain`: one chain record; the `Alignments` interval tree
is modelled as the list of alignments in insertion order. -/
structure Chain where
  Score : Int
  RefName : String
  RefSize : Int
  RefStrand : String
  RefStart : Int
  RefEnd : Int
  QueryName : String
  QuerySize : Int
  QueryStrand : String
  QueryStart : Int
  QueryEnd : Int
  ID_ : Int
  Alignments : List Alignment
deriving DecidableEq, Repr

/-- Embeds `Chain.LowAtDimension` (the dimension argument is ignored by the
source). -/
def Chain.LowAtDimension (c : Chain) (_dim : Nat) : Int := c.RefStart

/-- Embeds `Chain.HighAtDimension`. -/
def Chain.HighAtDimension (c : Chain) (_dim : Nat) : Int := c.RefEnd

/-- Embeds `Alignment.LowAtDimension`. -/
def Alignment.LowAtDimension (a : Alignment) (_dim : Nat) : Int := a.RefOffset

/-- Embeds `Alignment.HighAtDimension`. -/
def Alignment.HighAtDimension (a : Alignment) (_dim : Nat) : Int := a.RefOffset + a.Size

/-- Association-list lookup, modelling a Go map read. -/
def assocGet {α β : Type} [DecidableEq α] : List (α × β) → α → Option β
  | [], _ => none
  | (k, v) :: rest, key => if k = key then some v else assocGet rest key

/-- Association-list update, modelling a Go map write: replaces the binding
for the key when present, otherwise appends a new one. -/
def assocSet {α β : Type} [DecidableEq α] : List (α × β) → α → β → List (α × β)
  | [], key, v => [(key, v)]
  | (k, w) :: rest, key, v =>
    if k = key then (key, v) :: rest else (k, w) :: assocSet rest key v

/-- Embeds `chainfile.ChainFile`: the two-level index. Both Go maps are
modelled as association lists; each chromosome's augmented interval tree is
modelled as the list of its chains in insertion order. -/
structure ChainFile where
  ChainsByChromosome : List (String × List Chain)
  ChainByID : List (Int × Chain)
deriving DecidableEq, Repr

/-- Outcomes that abort `chainfile.Read`. `invalidChain` and
`invalidAlignment` model the two `fmt.Errorf` returns (each carries the
offending trimmed line); `indexPanic` models the Go runtime panic raised when
the header branch evaluates `fields[12]` on a line whose field slice has
exactly 12 entries (the `len(fields) < 12` guard counts the `chain` token
itself, so it does not rule this access out). -/
inductive ReadError where
  | invalidChain (line : String)
  | invalidAlignment (line : String)
  | indexPanic (line : String)
deriving DecidableEq, Repr

/-- The mutable state of the `chainfile.Read` loop: the chain file being
built, the chain currently being filled in, and the running offsets. -/
structure ReadState where
  cf : ChainFile
  currentChain : Option Chain
  refOffset : Int
  queryOffset : Int
deriving DecidableEq, Repr

/-- Commits a finished chain into the chain file: appends it to its reference
chromosome's tree (`tree.Add` plus the map write) and records it in the
id-keyed map. The augmented tree's `Add` is modelled from the spec (sect. 4.2
insert) as appending the interval to the tree's contents. -/
def commitChain (cf : ChainFile) (c : Chain) : ChainFile :=
  let bucket := (assocGet cf.ChainsByChromosome c.RefName).getD []
  { ChainsByChromosome := assocSet cf.ChainsByChromosome c.RefName (bucket ++ [c])
    ChainByID := assocSet cf.ChainByID c.ID_ c }

/-- The chain built by the header branch of `chainfile.Read` from the field
slice of a `chain` header line (only evaluated when the slice has at least 13
entries, indices 0 through 12). -/
def headerChain (fs : List String) : Chain :=
  { Score := parseField (fs.getD 1 "")
    RefName := names.Chromosome (fs.getD 2 "")
    RefSize := parseField (fs.getD 3 "")
    RefStrand := fs.getD 4 ""
    RefStart := parseField (fs.getD 5 "")
    RefEnd := parseField (fs.getD 6 "")
    QueryName := names.Chromosome (fs.getD 7 "")
    QuerySize := parseField (fs.getD 8 "")
    QueryStrand := fs.getD 9 ""
    QueryStart := parseField (fs.getD 10 "")
    QueryEnd := parseField (fs.getD 11 "")
    ID_ := parseField (fs.getD 12 "")
    Alignments := [] }

/-- One iteration of the `chainfile.Read` scanner loop on a raw input line,
mirroring the Go control flow: trim; skip blank and `#` lines; a line with
the prefix `chain` commits the previous chain, then checks the field count
and starts a new chain with the offsets reset; otherwise, with a current
chain in progress, a 1-field or 3-field line appends one alignment block at
the running offsets and advances them, and any other field count aborts. -/
def step (st : ReadState) (rawLine : String) : Except ReadError ReadState :=
  let line := trimSpace rawLine
  if line = "" then .ok st
  else if hasPrefixStr line "#" then .ok st
  else
    let fields := strFields line
    if hasPrefixStr line "chain" then
      let cf :=
        match st.currentChain with
        | some c => commitChain st.cf c
        | none => st.cf
      if fields.length < 12 then .error (.invalidChain line)
      else if fields.length = 12 then .error (.indexPanic line)
      else
        .ok { cf := cf, currentChain := some (headerChain fields)
              refOffset := 0, queryOffset := 0 }
    else
      match st.currentChain with
      | none => .ok st
      | some c =>
        match fields with
        | [szs] =>
          let size := parseField szs
          .ok { st with
                currentChain := some { c with Alignments := c.Alignments ++ [⟨st.refOffset, st.queryOffset, size⟩] }
                refOffset := st.refOffset + size
                queryOffset := st.queryOffset + size }
        | [szs, rgs, qgs] =>
          let size := parseField szs
          let refGap := parseField rgs
          let queryGap := parseField qgs
          .ok { st with
                currentChain := some { c with Alignments := c.Alignments ++ [⟨st.refOffset, st.queryOffset, size⟩] }
                refOffset := st.refOffset + size + refGap
                queryOffset := st.queryOffset + size + queryGap }
        | _ => .error (.invalidAlignment line)

/-- Runs the scanner loop over the remaining input lines. -/
def readLoop (st : ReadState) : List String → Except ReadError ReadState
  | [] => .ok st
  | l :: rest =>
    match step st l with
    | .ok st1 => readLoop st1 rest
    | .error e => .error e

/-- The initial state of `chainfile.Read`. -/
def initState : ReadState :=
  { cf := { ChainsByChromosome := [], ChainByID := [] }
    currentChain := none, refOffset := 0, queryOffset := 0 }

/-- The end-of-stream commit of `chainfile.Read`: a dangling current chain is
inserted into the index. -/
def finishCF (st : ReadState) : ChainFile :=
  match st.currentChain with
  | some c => commitChain st.cf c
  | none => st.cf

/-- Embeds `chainfile.Read`, with the input modelled as its list of scanned
lines (reading from an in-memory source, `scanner.Err()` is always nil). -/
def Read (lines : List String) : Except ReadError ChainFile :=
  match readLoop initState lines with
  | .ok st => .ok (finishCF st)
  | .error e => .error e

/-- Point query over an interval list, modelled from the spec: sect. 4.2
queryPoint returns every interval whose half-open extent (given by the
source's LowAtDimension / HighAtDimension accessors) contains the position.
The third-party augmented interval tree itself is not part of this
repository. -/
def queryPoint {α : Type} (low high : α → Int) (tree : List α) (position : Int) : List α :=
  tree.filter (fun x => low x ≤ position && position < high x)

/-- Not-found outcomes of the index lookups, modelling the `fmt.Errorf`
results of `GetChain` and `GetAlignment`. -/
inductive LookupError where
  | chromosomeNotFound (chromosome : String)
  | positionNotFound (position : Int) (chromosome : String)
  | chainNotFound (chainID : Int)
  | offsetNotFound (offset : Int) (chainID : Int)
deriving DecidableEq, Repr

/-- Models the `genobase/types.Chain` record returned by `GetChain`
(identifying fields only; the genobase dependency is not part of this
repository, its fields are those the source populates and reads). -/
structure ChainRec where
  ID : Int
  Score : Int
  RefName : String
  RefSize : Int
  RefStrand : String
  RefStart : Int
  RefEnd : Int
  QueryName : String
  QuerySize : Int
  QueryStrand : String
  QueryStart : Int
  QueryEnd : Int
deriving DecidableEq, Repr

/-- The `types.Chain` literal `ChainFile.GetChain` builds from a parsed chain. -/
def chainRecOf (c : Chain) : ChainRec :=
  { ID := c.ID_, Score := c.Score
    RefName := c.RefName, RefSize := c.RefSize, RefStrand := c.RefStrand
    RefStart := c.RefStart, RefEnd := c.RefEnd
    QueryName := c.QueryName, QuerySize := c.QuerySize
    QueryStrand := c.QueryStrand, QueryStart := c.QueryStart, QueryEnd := c.QueryEnd }

/-- Embeds `ChainFile.GetChain`: look up the chromosome's tree, point-query it
at the position, and return the first result (the `fromReference` argument is
accepted and ignored, as in the source). -/
def GetChain (cf : ChainFile) (_fromReference : String) (chromosome : String) (position : Int) :
    Except LookupError ChainRec :=
  match assocGet cf.ChainsByChromosome chromosome with
  | none => .error (.chromosomeNotFound chromosome)
  | some tree =>
    match queryPoint (fun c => c.LowAtDimension 0) (fun c => c.HighAtDimension 0) tree position with
    | [] => .error (.positionNotFound position chromosome)
    | c :: _ => .ok (chainRecOf c)

/-- Embeds `ChainFile.GetAlignment`: look up the chain by id, point-query its
alignment tree at the offset, and return the first result. -/
def GetAlignment (cf : ChainFile) (chainID : Int) (offset : Int) :
    Except LookupError Alignment :=
  match assocGet cf.ChainByID chainID with
  | none => .error (.chainNotFound chainID)
  | some chain =>
    match queryPoint (fun a => a.LowAtDimension 0) (fun a => a.HighAtDimension 0)
        chain.Alignments offset with
    | [] => .error (.offsetNotFound offset chainID)
    | a :: _ => .ok { RefOffset := a.RefOffset, QueryOffset := a.QueryOffset, Size := a.Size }

/-- Embeds `liftover.Lift` over an abstract chain source (the two methods of
the `ChainSource` interface are passed as functions; the Go error wrapping
adds message context only, so the underlying lookup error is propagated). -/
def Lift (getChain : String → String → Int → Except LookupError ChainRec)
    (getAlignment : Int → Int → Except LookupError Alignment)
    (fromReference chromosome : String) (position : Int) : Except LookupError Int :=
  match getChain fromReference chromosome position with
  | .error e => .error e
  | .ok chain =>
    match getAlignment chain.ID (position - chain.RefStart) with
    | .error e => .error e
    | .ok alignment =>
      let queryPosition := chain.QueryStart + alignment.QueryOffset
      let queryPosition :=
        if chain.QueryStrand = "+" then
          queryPosition + (position - (chain.RefStart + alignment.RefOffset))
        else
          chain.QueryEnd - (chain.RefStart + alignment.RefOffset)
      .ok queryPosition

/-- `liftover.Lift` applied to the in-memory `ChainFile` implementation of the
chain source. -/
def LiftCF (cf : ChainFile) (fromReference chromosome : String) (position : Int) :
    Except LookupError Int :=
  Lift (GetChain cf) (GetAlignment cf) fromReference chromosome position

/-- The `dbAlignments` slice `liftover.StoreChainFile` passes to
`db.StoreAlignments` for one chain: the source allocates
`make([]types.Alignment, chain.Alignments.Len())` — a slice already holding
`Len()` zero-valued entries — and then `append`s one entry per block during
the tree traversal, so the real blocks follow the zero-valued ones. -/
def dbAlignmentsFor (c : Chain) : List Alignment :=
  List.replicate c.Alignments.length ⟨0, 0, 0⟩ ++ c.Alignments

/-- The `types.Chain` record `StoreChainFile` passes to `db.StoreChain` for a
chain (no id: the store assigns one; the `Ref`/`from` tag is carried
separately by the call). -/
def storeChainRecOf (c : Chain) : ChainRec :=
  { ID := 0, Score := c.Score
    RefName := c.RefName, RefSize := c.RefSize, RefStrand := c.RefStrand
    RefStart := c.RefStart, RefEnd := c.RefEnd
    QueryName := c.QueryName, QuerySize := c.QuerySize
    QueryStrand := c.QueryStrand, QueryStart := c.QueryStart, QueryEnd := c.QueryEnd }

/-- Embeds the store-facing output of `liftover.StoreChainFile` on a
successful export: for every chain of every chromosome tree, in traversal
order, the chain record passed to `db.StoreChain` paired with the alignment
slice passed to `db.StoreAlignments` under the store-assigned id. -/
def storeChainFileCalls (cf : ChainFile) : List (ChainRec × List Alignment) :=
  (cf.ChainsByChromosome.map (fun b => b.2.map (fun c => (storeChainRecOf c, dbAlignmentsFor c)))).flatten

instance {ε α : Type} [DecidableEq ε] [DecidableEq α] : DecidableEq (Except ε α) := fun a b =>
  match a, b with
  | .ok x, .ok y =>
    if h : x = y then .isTrue (by rw [h]) else .isFalse (fun hh => h (Except.ok.inj hh))
  | .error x, .error y =>
    if h : x = y then .isTrue (by rw [h]) else .isFalse (fun hh => h (Except.error.inj hh))
  | .ok _, .error _ => .isFalse (fun hh => Except.noConfusion hh)
  | .error _, .ok _ => .isFalse (fun hh => Except.noConfusion hh)

/-- All chains held by the chromosome trees of a chain file. -/
def treeChains (cf : ChainFile) : List Chain :=
  (cf.ChainsByChromosome.map Prod.snd).flatten

/-- The chains the `Read` loop commits to the index while processing one raw
line: exactly the current chain, when the line survives the blank and comment
skips and carries the `chain` prefix. -/
def committedDuring (st : ReadState) (rawLine : String) : List Chain :=
  let line := trimSpace rawLine
  if line = "" then []
  else if hasPrefixStr line "#" then []
  else if hasPrefixStr line "chain" then st.currentChain.toList
  else []

/-- The chains `Read` commits over a list of input lines from a given state,
including the end-of-stream commit of a dangling chain; after an aborting
line the (discarded) tail commits are not counted. -/
def commitsOf (st : ReadState) : List String → List Chain
  | [] => st.currentChain.toList
  | l :: rest =>
    committedDuring st l ++
      (match step st l with
       | .ok st1 => commitsOf st1 rest
       | .error _ => [])

/-- Folding `commitChain` over a list of chains. -/
def applyCommits (cf : ChainFile) (cs : List Chain) : ChainFile :=
  cs.foldl commitChain cf

/-- Specification-side scan of a chain body, written from the claimed block
semantics: each block line contributes one alignment at the running offsets,
which then advance by `size` (1-field line) or by `size` plus the respective
gap (3-field line); returns the blocks together with the final offsets. -/
def scanBlocks (refOffset queryOffset : Int) : List String → List Alignment × Int × Int
  | [] => ([], refOffset, queryOffset)
  | l :: rest =>
    match strFields (trimSpace l) with
    | [szs] =>
      let size := parseField szs
      let r := scanBlocks (refOffset + size) (queryOffset + size) rest
      (⟨refOffset, queryOffset, size⟩ :: r.1, r.2)
    | [szs, rgs, qgs] =>
      let size := parseField szs
      let refGap := parseField rgs
      let queryGap := parseField qgs
      let r := scanBlocks (refOffset + size + refGap) (queryOffset + size + queryGap) rest
      (⟨refOffset, queryOffset, size⟩ :: r.1, r.2)
    | _ => ([], refOffset, queryOffset)

/-- A well-formed block line: not a comment, not a header, and carrying
exactly 1 or exactly 3 whitespace-separated fields (such a line is
necessarily non-blank). -/
def BlockLine (l : String) : Prop :=
  hasPrefixStr (trimSpace l) "#" = false ∧
  hasPrefixStr (trimSpace l) "chain" = false ∧
  ((strFields (trimSpace l)).length = 1 ∨ (strFields (trimSpace l)).length = 3)

instance (l : String) : Decidable (BlockLine l) := by
  unfold BlockLine; infer_instance

/-- The end-to-end example text from the specification, verbatim. -/
def exampleLines : List String :=
  ["chain 1000 1 + 0 100 1 + 0 100 5", "50 10 10", "40"]

/-- The example text with the header completed to a well-formed one (both
chromosome sizes supplied, spans covering position 120). -/
def exampleLinesFixed : List String :=
  ["chain 1000 1 200 + 100 200 1 200 + 100 200 5", "50 10 10", "40"]

/-- The chain parsed from `exampleLinesFixed`. -/
def exampleChain : Chain :=
  { Score := 1000, RefName := "1", RefSize := 200, RefStrand := "+"
    RefStart := 100, RefEnd := 200
    QueryName := "1", QuerySize := 200, QueryStrand := "+"
    QueryStart := 100, QueryEnd := 200, ID_ := 5
    Alignments := [⟨0, 0, 50⟩, ⟨60, 60, 40⟩] }

/-- The chain file parsed from `exampleLinesFixed`. -/
def exampleCF : ChainFile :=
  { ChainsByChromosome := [("1", [exampleChain])]
    ChainByID := [(5, exampleChain)] }

/-- A header line whose field slice has exactly 12 entries counting the
`chain` token itself, i.e. 11 fields after it. -/
def shortHeaderLine : String :=
  "chain 1000 1 200 + 0 100 1 200 + 0 100"

/-- Two-chain input whose headers carry the same id 7. -/
def dupIdLines : List String :=
  ["chain 1 1 100 + 0 10 1 100 + 0 10 7", "10",
   "chain 2 1 100 + 20 40 1 100 + 20 40 7", "20"]

/-- The first chain of `dupIdLines`. -/
def dupChain1 : Chain :=
  { Score := 1, RefName := "1", RefSize := 100, RefStrand := "+"
    RefStart := 0, RefEnd := 10
    QueryName := "1", QuerySize := 100, QueryStrand := "+"
    QueryStart := 0, QueryEnd := 10, ID_ := 7
    Alignments := [⟨0, 0, 10⟩] }

/-- The second chain of `dupIdLines`. -/
def dupChain2 : Chain :=
  { Score := 2, RefName := "1", RefSize := 100, RefStrand := "+"
    RefStart := 20, RefEnd := 40
    QueryName := "1", QuerySize := 100, QueryStrand := "+"
    QueryStart := 20, QueryEnd := 40, ID_ := 7
    Alignments := [⟨0, 0, 20⟩] }

/-- The chain file `Read` returns on `dupIdLines`: both chains sit in the
chromosome tree, but the id-keyed map holds only the second. -/
def dupCF : ChainFile :=
  { ChainsByChromosome := [("1", [dupChain1, dupChain2])]
    ChainByID := [(7, dupChain2)] }

/-- `dupIdLines` with the second id changed to 8, so ids are distinct. -/
def uniqIdLines : List String :=
  ["chain 1 1 100 + 0 10 1 100 + 0 10 7", "10",
   "chain 2 1 100 + 20 40 1 100 + 20 40 8", "20"]

/-- The second chain of `uniqIdLines`. -/
def uniqChain2 : Chain :=
  { dupChain2 with ID_ := 8 }

/-- The chain file `Read` returns on `uniqIdLines`. -/
def uniqCF : ChainFile :=
  { ChainsByChromosome := [("1", [dupChain1, uniqChain2])]
    ChainByID := [(7, dupChain1), (8, uniqChain2)] }

/-- Concrete chain record for exercising `Lift` against an abstract source. -/
def liftChainRec : ChainRec :=
  chainRecOf exampleChain

/-- Concrete minus-strand chain record for exercising `Lift`. -/
def liftChainRecMinus : ChainRec :=
  { liftChainRec with QueryStrand := "-" }

/-- Concrete alignment for exercising `Lift` against an abstract source. -/
def liftAlign : Alignment :=
  ⟨0, 0, 50⟩

/-! Shared lemmas about the string primitives and the scanner branches. -/

theorem data_of_chainPrefixed {s : String} (h : hasPrefixStr s "chain" = true) :
    ∃ rest, s.data = 'c' :: 'h' :: 'a' :: 'i' :: 'n' :: rest := by
  unfold hasPrefixStr at h
  rw [List.isPrefixOf_iff_prefix] at h
  obtain ⟨t, ht⟩ := h
  exact ⟨t, by rw [← ht]; rfl⟩

theorem ne_empty_of_chainPrefixed {s : String} (h : hasPrefixStr s "chain" = true) :
    s ≠ "" := by
  obtain ⟨rest, hd⟩ := data_of_chainPrefixed h
  intro hh
  rw [hh] at hd
  simp at hd

theorem not_comment_of_chainPrefixed {s : String} (h : hasPrefixStr s "chain" = true) :
    hasPrefixStr s "#" = false := by
  obtain ⟨rest, hd⟩ := data_of_chainPrefixed h
  unfold hasPrefixStr
  rw [hd]
  simp [List.isPrefixOf]

theorem ne_empty_of_fields_ne_nil {s : String} (h : strFields s ≠ []) : s ≠ "" := by
  intro hh
  apply h
  rw [hh]
  rfl

/-- C1: for every successful lift, given the chain and alignment block found
for the queried position, the destination equals
`chain.QueryStart + alignment.QueryOffset + (position - (chain.RefStart + alignment.RefOffset))`
on the plus strand, and `chain.QueryEnd - (chain.RefStart + alignment.RefOffset)`
on the minus strand (without the within-block offset term). -/
theorem c1_lift_destination_formula
    (getChain : String → String → Int → Except LookupError ChainRec)
    (getAlignment : Int → Int → Except LookupError Alignment)
    (fromReference chromosome : String) (position : Int)
    (chain : ChainRec) (alignment : Alignment)
    (hc : getChain fromReference chromosome position = .ok chain)
    (ha : getAlignment chain.ID (position - chain.RefStart) = .ok alignment) :
    (chain.QueryStrand = "+" →
      Lift getChain getAlignment fromReference chromosome position =
        .ok (chain.QueryStart + alignment.QueryOffset +
          (position - (chain.RefStart + alignment.RefOffset)))) ∧
    (chain.QueryStrand = "-" →
      Lift getChain getAlignment fromReference chromosome position =
        .ok (chain.QueryEnd - (chain.RefStart + alignment.RefOffset))) := by
  unfold Lift
  rw [hc]
  dsimp only
  rw [ha]
  dsimp only
  constructor
  · intro hs
    rw [if_pos hs]
  · intro hs
    rw [if_neg (by rw [hs]; decide)]

/-- Witness for C1 at a concrete source: a constant plus-strand chain source
mapping reference position 120 of the example chain. -/
theorem c1_lift_destination_formula_witness :
    Lift (fun _ _ _ => .ok liftChainRec) (fun _ _ => .ok liftAlign) "GRCh37" "1" 120 =
      .ok (liftChainRec.QueryStart + liftAlign.QueryOffset +
        (120 - (liftChainRec.RefStart + liftAlign.RefOffset))) :=
  (c1_lift_destination_formula (fun _ _ _ => .ok liftChainRec) (fun _ _ => .ok liftAlign)
    "GRCh37" "1" 120 liftChainRec liftAlign rfl rfl).1 (by decide)

/-- C2 (failing input): a header line whose field slice has exactly 12 entries
counting the `chain` token (11 fields after it) passes the `len(fields) < 12`
guard, and the header literal then reads `fields[12]` out of range — the Go
runtime panics instead of returning the descriptive error the claim
promises. -/
theorem c2_short_header_panics :
    (strFields shortHeaderLine).length = 12 ∧
    Read [shortHeaderLine] = .error (.indexPanic shortHeaderLine) := by
  constructor
  · decide
  · decide

/-- C3 (failing input): on the example chain file, the alignment slice passed
to the store for the chain is `make`-allocated with length 2 and then
`append`ed to, so the store receives four entries — two zero-valued blocks
followed by the two real ones — instead of exactly the chain's two blocks. -/
theorem c3_store_receives_padded_alignments :
    Read exampleLinesFixed = .ok exampleCF ∧
    exampleChain.Alignments.length = 2 ∧
    storeChainFileCalls exampleCF =
      [(storeChainRecOf exampleChain,
        [⟨0, 0, 0⟩, ⟨0, 0, 0⟩, ⟨0, 0, 50⟩, ⟨60, 60, 40⟩])] ∧
    dbAlignmentsFor exampleChain ≠ exampleChain.Alignments := by
  refine ⟨by decide, by decide, by decide, by decide⟩

/-- C5 (counterexample): parsing the specification's exact example text does
not succeed — its header carries only 10 fields after the `chain` token, so
`Read` aborts with the invalid-chain-line error. -/
theorem c5_example_text_fails_to_parse :
    Read exampleLines = .error (.invalidChain "chain 1000 1 + 0 100 1 + 0 100 5") := by
  decide

/-- C5 (amended): the example header is malformed (10 fields after `chain`,
fewer than 12) and is rejected; completing it to the well-formed header
`chain 1000 1 200 + 100 200 1 200 + 100 200 5` — sizes supplied and the
spans placed over position 120 — the same block lines parse, and lifting
reference position 120 returns query position 120. -/
theorem c5_amended_end_to_end :
    (strFields (trimSpace "chain 1000 1 + 0 100 1 + 0 100 5")).length < 12 ∧
    (Read exampleLines = .error (.invalidChain "chain 1000 1 + 0 100 1 + 0 100 5")) ∧
    Read exampleLinesFixed = .ok exampleCF ∧
    LiftCF exampleCF "GRCh37" "1" 120 = .ok 120 := by
  refine ⟨by decide, by decide, by decide, by decide⟩

/-- C8 (counterexample): `names.Chromosome` strips only a lowercase `chr`
prefix, and does so before case-folding, so `Chr1` normalizes to `CHR1`, not
to `1` as the claim states. -/
theorem c8_mixed_case_not_stripped :
    names.Chromosome "Chr1" = "CHR1" ∧ ("CHR1" : String) ≠ "1" := by
  constructor
  · decide
  · decide

/-- C8 (amended): normalization drops the prefix `chr` only when it appears
in lowercase, then upper-cases the remainder and aliases `M` to `MT`: `chr1`
gives `1`, `chrM` and `chrm` give `MT`, while `Chr1` and `CHR1` keep their
(upper-cased) `CHR` prefix. -/
theorem c8_amended_normalization :
    names.Chromosome "chr1" = "1" ∧
    names.Chromosome "chrM" = "MT" ∧
    names.Chromosome "chrm" = "MT" ∧
    names.Chromosome "Chr1" = "CHR1" ∧
    names.Chromosome "CHR1" = "CHR1" ∧
    names.Chromosome "x" = "X" ∧
    names.Chromosome "chrX" = "X" := by
  refine ⟨by decide, by decide, by decide, by decide, by decide, by decide, by decide⟩

/-- C10 (counterexample): a pre-header line beginning with the prefix `chain`
without being a header — here `chainsaw 1 2` — is not silently skipped: the
`strings.HasPrefix` test routes it into the header branch, and its field
count aborts `Read` with an error, contradicting the claim that every
non-blank, non-comment line before the first header causes no error. -/
theorem c10_chainsaw_line_errors :
    Read ["chainsaw 1 2"] = .error (.invalidChain "chainsaw 1 2") := by
  decide

/-- C10 (amended): any non-blank, non-comment line that does not begin with
the prefix `chain` and appears while no chain is in progress (in particular,
before the first header) is silently skipped by `Read` — regardless of its
field count it causes no error and contributes nothing; lines beginning with
the prefix `chain` are instead treated as header lines. -/
theorem c10_preheader_nonchain_skipped :
    (∀ (st : ReadState) (l : String) (rest : List String),
      st.currentChain = none →
      trimSpace l ≠ "" →
      hasPrefixStr (trimSpace l) "#" = false →
      hasPrefixStr (trimSpace l) "chain" = false →
      readLoop st (l :: rest) = readLoop st rest) ∧
    (∀ (l : String) (rest : List String),
      trimSpace l ≠ "" →
      hasPrefixStr (trimSpace l) "#" = false →
      hasPrefixStr (trimSpace l) "chain" = false →
      Read (l :: rest) = Read rest) := by
  have H : ∀ (st : ReadState) (l : String) (rest : List String),
      st.currentChain = none →
      trimSpace l ≠ "" →
      hasPrefixStr (trimSpace l) "#" = false →
      hasPrefixStr (trimSpace l) "chain" = false →
      readLoop st (l :: rest) = readLoop st rest := by
    intro st l rest hcur hblank hcomment hchain
    have hstep : step st l = .ok st := by
      dsimp only [step]
      rw [if_neg hblank, if_neg (by simp [hcomment]), if_neg (by simp [hchain]), hcur]
    simp only [readLoop, hstep]
  refine ⟨H, fun l rest hblank hcomment hchain => ?_⟩
  unfold Read
  rw [H initState l rest rfl hblank hcomment hchain]

/-- Witness for C10 at a concrete input: prepending the 2-field line `12 34`
to a chain file leaves the parse result unchanged. -/
theorem c10_preheader_nonchain_skipped_witness :
    Read ("12 34" :: uniqIdLines) = Read uniqIdLines :=
  c10_preheader_nonchain_skipped.2 "12 34" uniqIdLines (by decide) (by decide) (by decide)

/-- C7: while a chain is in progress, a non-blank, non-comment line that does
not begin with the prefix `chain` and has a field count other than 1 or 3
aborts `Read` with the invalid-alignment-line error; no chain file is
returned. The second conjunct states it for a line directly following a
well-formed header. -/
theorem c7_bad_block_line_aborts :
    (∀ (st : ReadState) (c : Chain) (l : String) (rest : List String),
      st.currentChain = some c →
      hasPrefixStr (trimSpace l) "#" = false →
      hasPrefixStr (trimSpace l) "chain" = false →
      (strFields (trimSpace l)).length ≠ 0 →
      (strFields (trimSpace l)).length ≠ 1 →
      (strFields (trimSpace l)).length ≠ 3 →
      readLoop st (l :: rest) = .error (.invalidAlignment (trimSpace l))) ∧
    (∀ (hl l : String) (rest : List String),
      hasPrefixStr (trimSpace hl) "chain" = true →
      13 ≤ (strFields (trimSpace hl)).length →
      hasPrefixStr (trimSpace l) "#" = false →
      hasPrefixStr (trimSpace l) "chain" = false →
      (strFields (trimSpace l)).length ≠ 0 →
      (strFields (trimSpace l)).length ≠ 1 →
      (strFields (trimSpace l)).length ≠ 3 →
      Read (hl :: l :: rest) = .error (.invalidAlignment (trimSpace l))) := by
  have H : ∀ (st : ReadState) (c : Chain) (l : String) (rest : List String),
      st.currentChain = some c →
      hasPrefixStr (trimSpace l) "#" = false →
      hasPrefixStr (trimSpace l) "chain" = false →
      (strFields (trimSpace l)).length ≠ 0 →
      (strFields (trimSpace l)).length ≠ 1 →
      (strFields (trimSpace l)).length ≠ 3 →
      readLoop st (l :: rest) = .error (.invalidAlignment (trimSpace l)) := by
    intro st c l rest hcur hcomment hchain h0 h1 h3
    have hblank : trimSpace l ≠ "" := by
      apply ne_empty_of_fields_ne_nil
      intro hh
      exact h0 (by rw [hh]; rfl)
    have hstep : step st l = .error (.invalidAlignment (trimSpace l)) := by
      dsimp only [step]
      rw [if_neg hblank, if_neg (by simp [hcomment]), if_neg (by simp [hchain]), hcur]
      rcases hfs : strFields (trimSpace l) with _ | ⟨a, _ | ⟨b, _ | ⟨d, _ | ⟨e, tl⟩⟩⟩⟩
      · exact absurd (by rw [hfs]; rfl) h0
      · exact absurd (by rw [hfs]; rfl) h1
      · rfl
      · exact absurd (by rw [hfs]; rfl) h3
      · rfl
    simp only [readLoop, hstep]
  refine ⟨H, fun hl l rest hhl hlen hcomment hchain h0 h1 h3 => ?_⟩
  have hne := ne_empty_of_chainPrefixed hhl
  have hcm := not_comment_of_chainPrefixed hhl
  have hstep : step initState hl =
      .ok { cf := initState.cf
            currentChain := some (headerChain (strFields (trimSpace hl)))
            refOffset := 0, queryOffset := 0 } := by
    dsimp only [step, initState]
    rw [if_neg hne, if_neg (by simp [hcm]), if_pos hhl, if_neg (by omega), if_neg (by omega)]
  have hloop : readLoop initState (hl :: l :: rest) = .error (.invalidAlignment (trimSpace l)) := by
    rw [readLoop, hstep]
    exact H _ (headerChain (strFields (trimSpace hl))) l rest rfl hcomment hchain h0 h1 h3
  unfold Read
  rw [hloop]

/-- Witness for C7: after a well-formed header, the 2-field line `1 2` aborts
the parse with the invalid-alignment-line error. -/
theorem c7_bad_block_line_aborts_witness :
    Read ["chain 1000 1 200 + 100 200 1 200 + 100 200 5", "1 2", "40"] =
      .error (.invalidAlignment "1 2") := by
  have h := c7_bad_block_line_aborts.2 "chain 1000 1 200 + 100 200 1 200 + 100 200 5"
    "1 2" ["40"] (by decide) (by decide) (by decide) (by decide) (by decide) (by decide)
    (by decide)
  exact h.trans (by decide)

/-- C4: point queries return only intervals whose half-open range contains
the point — a chain returned by `GetChain` satisfies
`RefStart <= position < RefEnd`, an alignment returned by `GetAlignment`
satisfies `RefOffset <= offset < RefOffset + Size`, and querying exactly the
end coordinate of the (sole) stored interval yields a not-found error rather
than that interval. -/
theorem c4_point_queries_half_open :
    (∀ (cf : ChainFile) (fr chrom : String) (pos : Int) (c : ChainRec),
      GetChain cf fr chrom pos = .ok c → c.RefStart ≤ pos ∧ pos < c.RefEnd) ∧
    (∀ (cf : ChainFile) (chainID off : Int) (a : Alignment),
      GetAlignment cf chainID off = .ok a → a.RefOffset ≤ off ∧ off < a.RefOffset + a.Size) ∧
    (∀ (cf : ChainFile) (fr chrom : String) (c : Chain),
      assocGet cf.ChainsByChromosome chrom = some [c] →
      GetChain cf fr chrom c.RefEnd = .error (.positionNotFound c.RefEnd chrom)) ∧
    (∀ (cf : ChainFile) (chainID : Int) (c : Chain) (a : Alignment),
      assocGet cf.ChainByID chainID = some c →
      c.Alignments = [a] →
      GetAlignment cf chainID (a.RefOffset + a.Size) =
        .error (.offsetNotFound (a.RefOffset + a.Size) chainID)) := by
  refine ⟨?_, ?_, ?_, ?_⟩
  · intro cf fr chrom pos c h
    unfold GetChain at h
    cases hm : assocGet cf.ChainsByChromosome chrom with
    | none => rw [hm] at h; exact absurd h (by simp)
    | some tree =>
      rw [hm] at h
      dsimp only at h
      cases hq : queryPoint (fun c => c.LowAtDimension 0) (fun c => c.HighAtDimension 0)
          tree pos with
      | nil => rw [hq] at h; exact absurd h (by simp)
      | cons c0 t =>
        rw [hq] at h
        have hmem : c0 ∈ queryPoint (fun c => c.LowAtDimension 0)
            (fun c => c.HighAtDimension 0) tree pos := by
          rw [hq]; exact List.mem_cons_self c0 t
        unfold queryPoint at hmem
        have hp := (List.mem_filter.mp hmem).2
        simp only [Bool.and_eq_true, decide_eq_true_eq, Chain.LowAtDimension,
          Chain.HighAtDimension] at hp
        have hc : c = chainRecOf c0 := (Except.ok.inj h).symm
        rw [hc]
        exact hp
  · intro cf chainID off a h
    unfold GetAlignment at h
    cases hm : assocGet cf.ChainByID chainID with
    | none => rw [hm] at h; exact absurd h (by simp)
    | some chain =>
      rw [hm] at h
      dsimp only at h
      cases hq : queryPoint (fun a => a.LowAtDimension 0) (fun a => a.HighAtDimension 0)
          chain.Alignments off with
      | nil => rw [hq] at h; exact absurd h (by simp)
      | cons a0 t =>
        rw [hq] at h
        have hmem : a0 ∈ queryPoint (fun a => a.LowAtDimension 0)
            (fun a => a.HighAtDimension 0) chain.Alignments off := by
          rw [hq]; exact List.mem_cons_self a0 t
        unfold queryPoint at hmem
        have hp := (List.mem_filter.mp hmem).2
        simp only [Bool.and_eq_true, decide_eq_true_eq, Alignment.LowAtDimension,
          Alignment.HighAtDimension] at hp
        have ha : a = { RefOffset := a0.RefOffset, QueryOffset := a0.QueryOffset
                        Size := a0.Size } := (Except.ok.inj h).symm
        rw [ha]
        exact hp
  · intro cf fr chrom c hm
    unfold GetChain
    rw [hm]
    dsimp only
    have hq : queryPoint (fun c => c.LowAtDimension 0) (fun c => c.HighAtDimension 0)
        [c] c.RefEnd = [] := by
      unfold queryPoint Chain.LowAtDimension Chain.HighAtDimension
      simp
    rw [hq]
  · intro cf chainID c a hm hal
    unfold GetAlignment
    rw [hm]
    dsimp only
    rw [hal]
    have hq : queryPoint (fun a => a.LowAtDimension 0) (fun a => a.HighAtDimension 0)
        [a] (a.RefOffset + a.Size) = [] := by
      unfold queryPoint Alignment.LowAtDimension Alignment.HighAtDimension
      simp
    rw [hq]

/-- Witness for C4 at the example index: position 120 is inside the example
chain half-open; offset 20 is inside its first block; querying the chain's
end coordinate 200 and the sole block's end offset is not found. -/
theorem c4_point_queries_half_open_witness :
    ((chainRecOf exampleChain).RefStart ≤ 120 ∧ 120 < (chainRecOf exampleChain).RefEnd) ∧
    (liftAlign.RefOffset ≤ 20 ∧ 20 < liftAlign.RefOffset + liftAlign.Size) ∧
    GetChain exampleCF "GRCh37" "1" exampleChain.RefEnd =
      .error (.positionNotFound exampleChain.RefEnd "1") ∧
    GetAlignment dupCF 7 ((⟨0, 0, 20⟩ : Alignment).RefOffset + (⟨0, 0, 20⟩ : Alignment).Size) =
      .error (.offsetNotFound ((⟨0, 0, 20⟩ : Alignment).RefOffset + (⟨0, 0, 20⟩ : Alignment).Size) 7) :=
  ⟨c4_point_queries_half_open.1 exampleCF "GRCh37" "1" 120 (chainRecOf exampleChain) (by decide),
   c4_point_queries_half_open.2.1 exampleCF 5 20 liftAlign (by decide),
   c4_point_queries_half_open.2.2.1 exampleCF "GRCh37" "1" exampleChain (by decide),
   c4_point_queries_half_open.2.2.2 dupCF 7 dupChain2 ⟨0, 0, 20⟩ (by decide) (by decide)⟩

/-- C6: a header line resets the running offsets to 0, and from any state
holding a current chain, processing a body of well-formed block lines appends
exactly one alignment per line at the running offsets, the offsets advancing
by `size` for a 1-field line and by `size + refGap` / `size + queryGap` for a
3-field line — i.e. the parser loop realizes the specification scan
`scanBlocks`. -/
theorem c6_block_lines_accumulate_offsets :
    (∀ (st : ReadState) (l : String) (st1 : ReadState),
      hasPrefixStr (trimSpace l) "chain" = true →
      step st l = .ok st1 →
      st1.refOffset = 0 ∧ st1.queryOffset = 0 ∧
      st1.currentChain = some (headerChain (strFields (trimSpace l)))) ∧
    (∀ (body : List String) (st : ReadState) (c : Chain),
      st.currentChain = some c →
      (∀ l ∈ body, BlockLine l) →
      readLoop st body =
        .ok { cf := st.cf
              currentChain := some { c with Alignments :=
                c.Alignments ++ (scanBlocks st.refOffset st.queryOffset body).1 }
              refOffset := (scanBlocks st.refOffset st.queryOffset body).2.1
              queryOffset := (scanBlocks st.refOffset st.queryOffset body).2.2 }) := by
  constructor
  · intro st l st1 hpre hstep
    have hne := ne_empty_of_chainPrefixed hpre
    have hcm := not_comment_of_chainPrefixed hpre
    dsimp only [step] at hstep
    rw [if_neg hne, if_neg (by simp [hcm]), if_pos hpre] at hstep
    by_cases h12 : (strFields (trimSpace l)).length < 12
    · rw [if_pos h12] at hstep
      exact absurd hstep (by simp)
    · rw [if_neg h12] at hstep
      by_cases heq : (strFields (trimSpace l)).length = 12
      · rw [if_pos heq] at hstep
        exact absurd hstep (by simp)
      · rw [if_neg heq] at hstep
        have h := Except.ok.inj hstep
        rw [← h]
        exact ⟨rfl, rfl, rfl⟩
  · intro body
    induction body with
    | nil =>
      intro st c hcur _
      obtain ⟨cf0, cur0, r0, q0⟩ := st
      dsimp only at hcur
      subst hcur
      dsimp only [readLoop, scanBlocks]
      simp
    | cons l body ih =>
      intro st c hcur hall
      obtain ⟨hcm, hch, hlen⟩ := hall l (List.mem_cons_self l body)
      have hblank : trimSpace l ≠ "" := by
        apply ne_empty_of_fields_ne_nil
        intro hh
        rw [hh] at hlen
        simp at hlen
      have hrest : ∀ x ∈ body, BlockLine x := fun x hx => hall x (List.mem_cons_of_mem l hx)
      rcases hlen with h1 | h3
      · obtain ⟨a, hfs⟩ := List.length_eq_one.mp h1
        have hstep : step st l = .ok { st with
            currentChain := some { c with Alignments :=
              c.Alignments ++ [⟨st.refOffset, st.queryOffset, parseField a⟩] }
            refOffset := st.refOffset + parseField a
            queryOffset := st.queryOffset + parseField a } := by
          dsimp only [step]
          rw [if_neg hblank, if_neg (by simp [hcm]), if_neg (by simp [hch]), hcur, hfs]
        rw [readLoop, hstep]
        dsimp only
        rw [ih _ _ rfl hrest]
        conv_rhs => rw [scanBlocks, hfs]
        dsimp only
        simp [List.append_assoc]
      · obtain ⟨a, b, d, hfs⟩ : ∃ a b d, strFields (trimSpace l) = [a, b, d] := by
          rcases hq : strFields (trimSpace l) with _ | ⟨a, _ | ⟨b, _ | ⟨d, _ | ⟨e, tl⟩⟩⟩⟩ <;>
            rw [hq] at h3 <;> simp at h3
          exact ⟨a, b, d, rfl⟩
        have hstep : step st l = .ok { st with
            currentChain := some { c with Alignments :=
              c.Alignments ++ [⟨st.refOffset, st.queryOffset, parseField a⟩] }
            refOffset := st.refOffset + parseField a + parseField b
            queryOffset := st.queryOffset + parseField a + parseField d } := by
          dsimp only [step]
          rw [if_neg hblank, if_neg (by simp [hcm]), if_neg (by simp [hch]), hcur, hfs]
        rw [readLoop, hstep]
        dsimp only
        rw [ih _ _ rfl hrest]
        conv_rhs => rw [scanBlocks, hfs]
        dsimp only
        simp [List.append_assoc]

/-- Witness for C6: the example body `50 10 10` then `40` processed from a
fresh chain yields blocks at offsets (0,0) and (60,60) with final offsets
(100,100). -/
theorem c6_block_lines_accumulate_offsets_witness :
    readLoop { cf := { ChainsByChromosome := [], ChainByID := [] }
               currentChain := some (headerChain (strFields (trimSpace "chain 1000 1 200 + 100 200 1 200 + 100 200 5")))
               refOffset := 0, queryOffset := 0 } ["50 10 10", "40"] =
      .ok { cf := { ChainsByChromosome := [], ChainByID := [] }
            currentChain := some { headerChain (strFields (trimSpace "chain 1000 1 200 + 100 200 1 200 + 100 200 5")) with
              Alignments := (headerChain (strFields (trimSpace "chain 1000 1 200 + 100 200 1 200 + 100 200 5"))).Alignments ++
                (scanBlocks 0 0 ["50 10 10", "40"]).1 }
            refOffset := (scanBlocks 0 0 ["50 10 10", "40"]).2.1
            queryOffset := (scanBlocks 0 0 ["50 10 10", "40"]).2.2 } :=
  c6_block_lines_accumulate_offsets.2 ["50 10 10", "40"] _ _ rfl (by decide)

/-! Lemmas about the association-list maps and the commit structure of
`Read`, used to settle the id-uniqueness claim. -/

theorem assocGet_assocSet_self {α β : Type} [DecidableEq α]
    (m : List (α × β)) (k : α) (v : β) :
    assocGet (assocSet m k v) k = some v := by
  induction m with
  | nil => simp [assocSet, assocGet]
  | cons kv rest ih =>
    obtain ⟨k', w⟩ := kv
    by_cases h : k' = k
    · subst h
      simp [assocSet, assocGet]
    · simp [assocSet, assocGet, h, ih]

theorem assocGet_assocSet_ne {α β : Type} [DecidableEq α]
    (m : List (α × β)) (k k' : α) (v : β) (h : k' ≠ k) :
    assocGet (assocSet m k v) k' = assocGet m k' := by
  induction m with
  | nil =>
    dsimp only [assocSet, assocGet]
    rw [if_neg (fun hh => h hh.symm)]
  | cons kv rest ih =>
    obtain ⟨k0, w⟩ := kv
    dsimp only [assocSet]
    by_cases h0 : k0 = k
    · subst h0
      rw [if_pos rfl]
      dsimp only [assocGet]
      rw [if_neg (fun hh => h hh.symm), if_neg (fun hh => h hh.symm)]
    · rw [if_neg h0]
      dsimp only [assocGet]
      by_cases h1 : k0 = k'
      · rw [if_pos h1, if_pos h1]
      · rw [if_neg h1, if_neg h1]
        exact ih

theorem flatten_assocSet_perm (m : List (String × List Chain)) (k : String) (c : Chain) :
    ((assocSet m k ((assocGet m k).getD [] ++ [c])).map Prod.snd).flatten.Perm
      ((m.map Prod.snd).flatten ++ [c]) := by
  induction m with
  | nil => simp [assocSet, assocGet]
  | cons kv rest ih =>
    obtain ⟨k0, b⟩ := kv
    by_cases h0 : k0 = k
    · subst h0
      have hg : assocGet ((k0, b) :: rest) k0 = some b := by
        dsimp only [assocGet]
        rw [if_pos rfl]
      rw [hg]
      have hs : assocSet ((k0, b) :: rest) k0 ((some b).getD [] ++ [c]) =
          (k0, b ++ [c]) :: rest := by
        dsimp only [assocSet]
        rw [if_pos rfl]
        rfl
      rw [hs]
      simp only [List.map_cons, List.flatten_cons, Option.getD_some]
      rw [List.append_assoc, List.append_assoc]
      exact List.Perm.append_left b List.perm_append_comm
    · have hg : assocGet ((k0, b) :: rest) k = assocGet rest k := by
        dsimp only [assocGet]
        rw [if_neg h0]
      rw [hg]
      have hs : assocSet ((k0, b) :: rest) k ((assocGet rest k).getD [] ++ [c]) =
          (k0, b) :: assocSet rest k ((assocGet rest k).getD [] ++ [c]) := by
        dsimp only [assocSet]
        rw [if_neg h0]
      rw [hs]
      simp only [List.map_cons, List.flatten_cons]
      rw [List.append_assoc]
      exact List.Perm.append_left b ih

theorem treeChains_commitChain (cf : ChainFile) (c : Chain) :
    (treeChains (commitChain cf c)).Perm (treeChains cf ++ [c]) := by
  unfold treeChains commitChain
  exact flatten_assocSet_perm cf.ChainsByChromosome c.RefName c

theorem treeChains_applyCommits (cf : ChainFile) (cs : List Chain) :
    (treeChains (applyCommits cf cs)).Perm (treeChains cf ++ cs) := by
  induction cs generalizing cf with
  | nil => simp [applyCommits]
  | cons d cs ih =>
    have h1 : applyCommits cf (d :: cs) = applyCommits (commitChain cf d) cs := rfl
    rw [h1]
    refine (ih (commitChain cf d)).trans ?_
    refine (List.Perm.append_right cs (treeChains_commitChain cf d)).trans ?_
    rw [List.append_assoc]
    rfl

theorem chainByID_applyCommits_not_mem (cs : List Chain) (cf : ChainFile) (id : Int)
    (h : id ∉ cs.map Chain.ID_) :
    assocGet (applyCommits cf cs).ChainByID id = assocGet cf.ChainByID id := by
  induction cs generalizing cf with
  | nil => rfl
  | cons d cs ih =>
    simp only [List.map_cons, List.mem_cons, not_or] at h
    have h1 : applyCommits cf (d :: cs) = applyCommits (commitChain cf d) cs := rfl
    rw [h1, ih (commitChain cf d) h.2]
    exact assocGet_assocSet_ne cf.ChainByID d.ID_ id d h.1

theorem chainByID_applyCommits_mem (cs : List Chain) (cf : ChainFile) (c : Chain)
    (hmem : c ∈ cs) (hnodup : (cs.map Chain.ID_).Nodup) :
    assocGet (applyCommits cf cs).ChainByID c.ID_ = some c := by
  induction cs generalizing cf with
  | nil => cases hmem
  | cons d cs ih =>
    rw [List.map_cons, List.nodup_cons] at hnodup
    have h1 : applyCommits cf (d :: cs) = applyCommits (commitChain cf d) cs := rfl
    rcases List.mem_cons.mp hmem with hd | htl
    · subst hd
      rw [h1, chainByID_applyCommits_not_mem cs (commitChain cf c) c.ID_ hnodup.1]
      exact assocGet_assocSet_self cf.ChainByID c.ID_ c
    · rw [h1]
      exact ih (commitChain cf d) htl hnodup.2

theorem step_commits (st : ReadState) (l : String) (st1 : ReadState)
    (h : step st l = .ok st1) :
    st1.cf = applyCommits st.cf (committedDuring st l) := by
  dsimp only [step, committedDuring] at h ⊢
  by_cases hb : trimSpace l = ""
  · rw [if_pos hb] at h ⊢
    rw [← Except.ok.inj h]
    rfl
  · rw [if_neg hb] at h ⊢
    by_cases hc : hasPrefixStr (trimSpace l) "#"
    · rw [if_pos hc] at h ⊢
      rw [← Except.ok.inj h]
      rfl
    · rw [if_neg hc] at h ⊢
      by_cases hch : hasPrefixStr (trimSpace l) "chain"
      · rw [if_pos hch] at h ⊢
        by_cases h12 : (strFields (trimSpace l)).length < 12
        · rw [if_pos h12] at h
          exact absurd h (by simp)
        · rw [if_neg h12] at h
          by_cases heq : (strFields (trimSpace l)).length = 12
          · rw [if_pos heq] at h
            exact absurd h (by simp)
          · rw [if_neg heq] at h
            rw [← Except.ok.inj h]
            cases st.currentChain with
            | none => rfl
            | some c => rfl
      · rw [if_neg hch] at h ⊢
        cases hcur : st.currentChain with
        | none =>
          rw [hcur] at h
          rw [← Except.ok.inj h]
          rfl
        | some c =>
          rw [hcur] at h
          rcases hfs : strFields (trimSpace l) with _ | ⟨a, _ | ⟨b, _ | ⟨d, _ | ⟨e, tl⟩⟩⟩⟩ <;>
            rw [hfs] at h
          · exact absurd h (by simp)
          · rw [← Except.ok.inj h]
            rfl
          · exact absurd h (by simp)
          · rw [← Except.ok.inj h]
            rfl
          · exact absurd h (by simp)

theorem readLoop_applyCommits (lines : List String) (st st' : ReadState)
    (h : readLoop st lines = .ok st') :
    finishCF st' = applyCommits st.cf (commitsOf st lines) := by
  induction lines generalizing st with
  | nil =>
    dsimp only [readLoop] at h
    rw [← Except.ok.inj h]
    dsimp only [commitsOf, finishCF]
    cases hcur : st.currentChain with
    | none => rfl
    | some c => rfl
  | cons l rest ih =>
    rw [readLoop] at h
    cases hstep : step st l with
    | error e => rw [hstep] at h; exact absurd h (by simp)
    | ok st1 =>
      rw [hstep] at h
      dsimp only at h
      rw [commitsOf, hstep]
      dsimp only
      rw [ih st1 h]
      unfold applyCommits
      rw [List.foldl_append]
      congr 1
      exact step_commits st l st1 hstep

theorem read_eq_applyCommits (lines : List String) (cf : ChainFile)
    (h : Read lines = .ok cf) :
    cf = applyCommits initState.cf (commitsOf initState lines) := by
  unfold Read at h
  cases hl : readLoop initState lines with
  | error e => rw [hl] at h; exact absurd h (by simp)
  | ok st =>
    rw [hl] at h
    dsimp only at h
    rw [← Except.ok.inj h]
    exact readLoop_applyCommits lines initState st hl

/-- C9 (counterexample): `Read` does not enforce id uniqueness — on input
whose two headers both carry id 7, both chains are inserted into the
chromosome tree, but the id-keyed map retains only the second, so the first
is not retrievable under its own identifier. -/
theorem c9_duplicate_id_loses_chain :
    Read dupIdLines = .ok dupCF ∧
    dupChain1 ∈ treeChains dupCF ∧
    assocGet dupCF.ChainByID dupChain1.ID_ ≠ some dupChain1 := by
  refine ⟨by decide, by decide, by decide⟩

/-- C9 (amended): when the chain identifiers of the parsed chain set are
pairwise distinct, every chain inserted into a chromosome tree is retrievable
from `ChainByID` under its own identifier; with duplicate ids a later chain
overwrites the earlier one in `ChainByID` while both remain in the trees. -/
theorem c9_unique_ids_retrievable (lines : List String) (cf : ChainFile)
    (h : Read lines = .ok cf)
    (hnodup : ((treeChains cf).map Chain.ID_).Nodup) :
    ∀ c ∈ treeChains cf, assocGet cf.ChainByID c.ID_ = some c := by
  intro c hc
  have hcf := read_eq_applyCommits lines cf h
  have hperm : (treeChains cf).Perm (commitsOf initState lines) := by
    rw [hcf]
    exact (treeChains_applyCommits initState.cf (commitsOf initState lines)).trans
      (by rw [show treeChains initState.cf = [] from rfl, List.nil_append])
  have hnodup' : ((commitsOf initState lines).map Chain.ID_).Nodup :=
    ((hperm.map Chain.ID_).nodup_iff).mp hnodup
  have hmem : c ∈ commitsOf initState lines := hperm.mem_iff.mp hc
  rw [hcf]
  exact chainByID_applyCommits_mem (commitsOf initState lines) initState.cf c hmem hnodup'

/-- Witness for C9 on the distinct-id two-chain input: the first chain is
retrievable from the id map under its own id 7. -/
theorem c9_unique_ids_retrievable_witness :
    assocGet uniqCF.ChainByID dupChain1.ID_ = some dupChain1 :=
  c9_unique_ids_retrievable uniqIdLines uniqCF (by decide) (by decide) dupChain1 (by decide)

end Nucleo
